import Mathlib

/-!
Verification of the `msg` man-page-to-HTML compiler (`src/msg.c`).

Strings are modelled as `List Char` (the C `String_View` is a pointer/length
pair into the source buffer; a span of characters).  The string-view helper
library (`sv.h`) is not part of the repository sources available here, so its
handful of helpers are modelled from the spec's wording and their well-known
semantics (trim leading/trailing whitespace, split at the first occurrence of a
delimiter, prefix test).  Everything in `msg.c` itself (the line dispatch loop,
the escape-aware title tokenizer, the renderer) is translated line by line.
-/

deriving instance DecidableEq for Except

namespace Msg

/-- Modelled from the spec: the C `isspace` predicate used by the `sv.h`
trimming helpers ("trim leading whitespace"); true on the six standard C
whitespace characters. -/
def c_isspace (c : Char) : Bool :=
  c = ' ' || c = '\t' || c = '\n' || c = '\x0b' || c = '\x0c' || c = '\r'

/-- Modelled from the spec: `sv_trim_left` from `sv.h` — drop leading
whitespace ("trim leading whitespace"). -/
def sv_trim_left (s : List Char) : List Char := s.dropWhile c_isspace

/-- Modelled from the spec: `sv_trim_right` from `sv.h` — drop trailing
whitespace. -/
def sv_trim_right (s : List Char) : List Char :=
  (s.reverse.dropWhile c_isspace).reverse

/-- Modelled from the spec: `sv_trim` from `sv.h` — trim both ends
("each collected field is trimmed ... before storage"). -/
def sv_trim (s : List Char) : List Char := sv_trim_right (sv_trim_left s)

/-- Modelled from the spec: `sv_starts_with` from `sv.h` — does `s` begin with
`p`? ("each line is classified by its prefix"). -/
def sv_starts_with : List Char → List Char → Bool
  | _, [] => true
  | [], _ :: _ => false
  | c :: s, p :: ps => if c = p then sv_starts_with s ps else false

/-- Modelled from the spec: `sv_chop_by_delim` from `sv.h` — split off the part
of `s` before the first occurrence of `delim`; the remainder starts after that
occurrence (empty when `delim` does not occur).  Used with `'\n'` for the
line loop ("splitting on the newline character") and with `' '` by the link
renderer ("split on the first space"). -/
def sv_chop_by_delim (delim : Char) (s : List Char) : List Char × List Char :=
  (s.takeWhile (fun c => ¬ c = delim), (s.dropWhile (fun c => ¬ c = delim)).drop 1)

/-- The directive tags tested by `parse_page` (`SV(".TH")` etc.). -/
def thTag : List Char := ['.', 'T', 'H']

/-- The `.SH` tag. -/
def shTag : List Char := ['.', 'S', 'H']

/-- The `.LN` tag. -/
def lnTag : List Char := ['.', 'L', 'N']

/-- The bare `.` tag of the unrecognized-directive test. -/
def dotTag : List Char := ['.']

/-- `msg.c` line 103-104: `while (src.count != 0) { line = sv_chop_by_delim(&src, '\n'); ... }`
— the list of lines the parser iterates over.  The fuel is an upper bound on
the number of loop iterations; `src.length + 1` always suffices because each
chop strictly shrinks a nonempty `src`. -/
def splitLinesFuel : Nat → List Char → List (List Char)
  | _, [] => []
  | 0, _ :: _ => []
  | fuel + 1, c :: cs =>
    let p := sv_chop_by_delim '\n' (c :: cs)
    p.1 :: splitLinesFuel fuel p.2

/-- The lines of the source, as the C loop produces them (a trailing newline
does not yield a final empty line; a lone `'\n'` yields one empty line). -/
def splitLines (src : List Char) : List (List Char) :=
  splitLinesFuel (src.length + 1) src

/-- Command kinds, `msg.c` lines 19-22. -/
inductive CommandType where
  | Text : CommandType
  | Link : CommandType
deriving DecidableEq, Repr

/-- `msg.c` lines 17-24: a parsed command. -/
structure Command where
  type : CommandType
  value : List Char
deriving DecidableEq, Repr

/-- `msg.c` lines 26-33: a section (growth bookkeeping dropped; the spec says
any growable ordered container is a faithful model). -/
structure Section where
  name : List Char
  commands : List Command
deriving DecidableEq, Repr

/-- `msg.c` lines 37-45: the page.  `title` is the fixed 5-slot array
(`String_View title[Title_Fields]`), kept as a list of length 5; `path` is
passed separately to the parser (it only feeds diagnostics). -/
structure Page where
  title : List (List Char)
  sections : List Section
deriving DecidableEq, Repr

/-- The zero-initialized page of `msg.c` lines 99-101: five empty title slots,
no sections. -/
def initPage : Page := { title := List.replicate 5 [], sections := [] }

/-- `msg.c` lines 112-126: the escape-aware title tokenizer loop.
`line` is the whole (already left-trimmed) `.TH` remainder; `rest` is
`line.drop (i+1)` with `c` the character at index `i`; `start` is the start
index of the current field; `acc` the fields stored so far (`cursor` is
`acc.length`).  A field is stored when an unescaped space is met or when `i`
is the last index (`i+1 == line.count`), as the span `data[start ..= i]`
trimmed; then `start := i` and the loop continues. -/
def thGo (line : List Char) :
    List Char → Nat → Nat → Bool → List (List Char) → List (List Char)
  | [], _, _, _, acc => acc
  | c :: rest, i, start, escape, acc =>
    if acc.length < 5 then
      if (!escape && c = ' ') || rest = [] then
        thGo line rest (i + 1) i escape
          (acc ++ [sv_trim ((line.drop start).take (i + 1 - start))])
      else if c = '\\' then
        thGo line rest (i + 1) start true acc
      else
        thGo line rest (i + 1) start false acc
    else acc

/-- The fields collected by the `.TH` tokenizer from the trimmed remainder. -/
def thFields (line : List Char) : List (List Char) :=
  thGo line line 0 0 false []

/-- Writing the collected fields into the title array: `page.title[cursor++] = ...`
starting at index 0 overwrites a prefix of the array and leaves the tail. -/
def writeFields (old fields : List (List Char)) : List (List Char) :=
  fields ++ old.drop fields.length

/-- `msg.c` lines 56-60 and 138-158: append one command to the last section
(`Back(page, sections)` is `&sections[sections_count - 1]`, then `Push`
grows its command array).  Never called on an empty section list (the C code
would index `sections[-1]` there — see `ParseFatal.linkNoSectionUB`). -/
def appendToLast (ss : List Section) (c : Command) : List Section :=
  match ss.getLast? with
  | none => []
  | some s => ss.dropLast ++ [{ s with commands := s.commands ++ [c] }]

/-- How a parse can abort. -/
inductive ParseFatal where
  /-- `msg.c` lines 151-154: a body-text line with `sections_count == 0`;
  the program prints `"<path>: error: trying to add text without specifing
  section header .SH"` and exits with status 1. -/
  | textOutsideSection (path : List Char) : ParseFatal
  /-- `msg.c` lines 138-143: a `.LN` line with `sections_count == 0`.  There
  is no check: `Back(page, sections)` computes `&sections[0 - 1]` on a NULL
  array and the subsequent `Push` dereferences it — undefined behavior, with
  no diagnostic message.  Modelled as this distinct abort. -/
  | linkNoSectionUB : ParseFatal
deriving DecidableEq, Repr

/-- The diagnostic printed for the fatal text-outside-section error
(`msg.c` line 152); the UB case prints nothing. -/
def fatalMessage : ParseFatal → List Char
  | .textOutsideSection path =>
      path ++ ": error: trying to add text without specifing section header .SH".toList
  | .linkNoSectionUB => []

/-- `msg.c` lines 106-158: processing of one line of the source, in the exact
dispatch order of the C code: `.TH`, `.SH`, `.LN`, any other `.`-prefixed line
(warning, dropped), otherwise body text. -/
def parseLine (path : List Char) (page : Page) (line : List Char) :
    Except ParseFatal Page :=
  if sv_starts_with line thTag then
    .ok { page with
          title := writeFields page.title (thFields (sv_trim_left (line.drop 3))) }
  else if sv_starts_with line shTag then
    .ok { page with
          sections := page.sections ++ [{ name := sv_trim_left (line.drop 3), commands := [] }] }
  else if sv_starts_with line lnTag then
    if page.sections.isEmpty then .error .linkNoSectionUB
    else
      .ok { page with
            sections := appendToLast page.sections { type := .Link, value := line.drop 3 } }
  else if sv_starts_with line dotTag then
    .ok page
  else if page.sections.length = 0 then
    .error (.textOutsideSection path)
  else
    .ok { page with
          sections := appendToLast page.sections { type := .Text, value := line } }

/-- The parser loop over the list of lines. -/
def parseLines (path : List Char) : Page → List (List Char) → Except ParseFatal Page
  | page, [] => .ok page
  | page, l :: ls =>
    match parseLine path page l with
    | .ok p => parseLines path p ls
    | .error e => .error e

/-- `msg.c` lines 96-162: `parse_page`.  Reading the file is the external I/O
collaborator; the parser proper receives the loaded text `src`. -/
def parse_page (path src : List Char) : Except ParseFatal Page :=
  parseLines path initPage (splitLines src)

/-- `msg.c` lines 13-15: the (never reassigned) color configuration values. -/
def background_color : List Char := "300".toList

/-- `msg.c` line 14. -/
def text_color : List Char := "45".toList

/-- `msg.c` line 15. -/
def accent_color : List Char := "168".toList

/-- `msg.c` lines 220-227: `print_link_to`.  The payload is trimmed, chopped at
the first space into the href, and the trimmed rest is the label. -/
def print_link_to (src : List Char) : List Char :=
  let s := sv_trim src
  let p := sv_chop_by_delim ' ' s
  let href := sv_trim p.1
  let lbl := sv_trim p.2
  "<a href=\"".toList ++ href ++ "\">".toList ++ lbl ++ "</a>".toList

/-- `msg.c` lines 193-204: the output of one command inside a section:
a `Text` whose trimmed content is empty prints `"<br /><br />\n"`, any other
`Text` prints its content verbatim followed by a newline, and a `Link` is
printed by `print_link_to`. -/
def renderCommand (c : Command) : List Char :=
  match c.type with
  | .Text =>
    if (sv_trim c.value).length = 0 then "<br /><br />\n".toList
    else c.value ++ "\n".toList
  | .Link => print_link_to c.value

/-- `msg.c` lines 188-207: the output of one section. -/
def renderSection (s : Section) : List Char :=
  "<section>\n<h2>".toList ++ s.name ++ "</h2>".toList
    ++ (s.commands.map renderCommand).flatten
    ++ "</section>\n".toList

/-- Title field access: `page->title[i]` (unset slots are empty). -/
def titleField (page : Page) (i : Nat) : List Char := page.title.getD i []

/-- `msg.c` lines 166-186: everything `print_page_to` emits before the section
loop — preamble, embedded style blocks and the header block.  `theme` is the
content of the stylesheet file (an external input, embedded verbatim). -/
def pageHead (page : Page) (theme : List Char) : List Char :=
  "<!DOCTYPE html>\n<html>\n<head>\n<meta charset=\"utf-8\" />\n<title>".toList
    ++ titleField page 4 ++ "</title>\n<style>\n:root \x7b --background-color: ".toList
    ++ background_color ++ "deg; --text-color: ".toList
    ++ text_color ++ "deg; --accent-color: ".toList
    ++ accent_color ++ "deg; \x7d</style>\n<style>".toList
    ++ theme ++ "</style>\n</head>\n<body>\n<div class=\"content\">\n<header>\n<div>".toList
    ++ titleField page 0 ++ "(".toList ++ titleField page 1
    ++ ")</div>\n<div><h1>".toList ++ titleField page 4
    ++ "</h1></div>\n<div>".toList
    ++ titleField page 0 ++ "(".toList ++ titleField page 1
    ++ ")</div>\n</header>\n".toList

/-- `msg.c` lines 209-217: the footer block and closing elements. -/
def pageFoot (page : Page) : List Char :=
  "<footer>\n<div>".toList ++ titleField page 3
    ++ "</div>\n<div>".toList ++ titleField page 2
    ++ "</div>\n<div>".toList ++ titleField page 3
    ++ "</div>\n</footer>\n</div>\n</body>\n</html>\n".toList

/-- `msg.c` lines 164-218: `print_page_to`, the whole HTML document: head,
then each section in order, then the footer. -/
def print_page_to (page : Page) (theme : List Char) : List Char :=
  pageHead page theme ++ (page.sections.map renderSection).flatten ++ pageFoot page

/-- The all-empty section, used as the `getD` fallback in statements about
section indexing. -/
def noSection : Section := { name := [], commands := [] }

/-- What a single line contributes to the section that is open when it is
parsed: `.TH`, `.SH` and unrecognized directives contribute no command, a
`.LN` line contributes a `Link` holding the raw remainder after the tag, and
any other line contributes a `Text` holding the whole line.  The branch order
mirrors `parseLine`. -/
def lineToCmd (l : List Char) : Option Command :=
  if sv_starts_with l thTag then none
  else if sv_starts_with l shTag then none
  else if sv_starts_with l lnTag then some { type := .Link, value := l.drop 3 }
  else if sv_starts_with l dotTag then none
  else some { type := .Text, value := l }

/-- The section names contributed by the `.SH` lines of a line list, in
order. -/
def shNames (ls : List (List Char)) : List (List Char) :=
  (ls.filter (fun l => sv_starts_with l shTag)).map (fun l => sv_trim_left (l.drop 3))

/-- Modelled from the spec: the link target — "split on the first space into
`target` and `label` (both trimmed)", reading the split as applied to the
trimmed raw payload: the part before the first space, trimmed. -/
def link_target (v : List Char) : List Char :=
  sv_trim ((sv_trim v).takeWhile (fun c => ¬ c = ' '))

/-- Modelled from the spec: the link label — the part after the first space,
trimmed (empty when there is no space). -/
def link_label (v : List Char) : List Char :=
  sv_trim (((sv_trim v).dropWhile (fun c => ¬ c = ' ')).drop 1)

/-! ### Concrete inputs referenced by the claims and their witnesses -/

/-- A sample source path (the program default). -/
def pathEx : List Char := "index.1".toList

/-- The `.TH` line of the spec's end-to-end example. -/
def c1src : List Char := ".TH Prog 1 2024-01-01 SourceX My Program\n".toList

/-- The title fields the code actually computes for `c1src`: the fifth field
stops at the space after `My`; the sixth token `Program` is discarded. -/
def c1title : List (List Char) :=
  ["Prog".toList, "1".toList, "2024-01-01".toList, "SourceX".toList, "My".toList]

/-- A `.TH` line with an escaped space in the first field. -/
def c2src : List Char := ".TH A\\ B C D E\n".toList

/-- The title fields the code computes for `c2src`: the escaped space does not
split, but the backslash stays in the stored field. -/
def c2title : List (List Char) :=
  ["A\\ B".toList, "C".toList, "D".toList, "E".toList, []]

/-- A source whose only line is a `.LN` directive (no `.SH` before it). -/
def c3src : List Char := ".LN https://example.com Example\n".toList

/-- A `.TH` line with exactly five plain tokens. -/
def c5src : List Char := ".TH A B C D E\n".toList

/-- The five fields parsed from `c5src`. -/
def c5title : List (List Char) := [['A'], ['B'], ['C'], ['D'], ['E']]

/-- A two-token `.TH` remainder used to witness C5. -/
def c5line2 : List Char := "A B".toList

/-- The link payload of the spec's end-to-end example. -/
def c9payload : List Char := "https://example.com Example".toList

/-- An empty page used to witness C10. -/
def pgW10 : Page := { title := List.replicate 5 [], sections := [] }

/-- An unrecognized directive line. -/
def lineUnrec : List Char := ".XY abc".toList

/-- A line whose first three characters match `.SH` with junk attached. -/
def lineSHx : List Char := ".SHx name".toList

/-- The directive-only prefix used to witness C4. -/
def preW4 : List (List Char) := [".TH A B".toList, ".XX junk".toList]

/-- The body-text line used to witness C4. -/
def lineW4 : List Char := "hello".toList

/-- The source used to witness C6. -/
def c6src : List Char := ".SH A\nx\n.SH B\n.LN u v\n".toList

/-- The page `c6src` parses to. -/
def pageW6 : Page :=
  { title := List.replicate 5 []
    sections := [{ name := ['A'], commands := [{ type := .Text, value := ['x'] }] },
                 { name := ['B'], commands := [{ type := .Link, value := [' ', 'u', ' ', 'v'] }] }] }

/-- The prefix lines used to witness C7 (they open one earlier section). -/
def preW7 : List (List Char) := [".SH A".toList, "x".toList]

/-- The `.SH` header whose section C7 is witnessed on. -/
def shW7 : List Char := ".SH B".toList

/-- The lines between the witnessed header and the next one. -/
def midW7 : List (List Char) := ["hello".toList, ".LN u l".toList]

/-- The following lines, starting with the next `.SH` header. -/
def postW7 : List (List Char) := [".SH C".toList]

/-- The page the C7 witness source parses to. -/
def pageW7 : Page :=
  { title := List.replicate 5 []
    sections :=
      [{ name := ['A'], commands := [{ type := .Text, value := ['x'] }] },
       { name := ['B'], commands :=
          [{ type := .Text, value := ['h', 'e', 'l', 'l', 'o'] },
           { type := .Link, value := [' ', 'u', ' ', 'l'] }] },
       { name := ['C'], commands := [] }] }

/-- The page used to witness C8. -/
def pgW8 : Page :=
  { title := List.replicate 5 []
    sections := [{ name := "NAME".toList
                   commands := [{ type := .Text, value := "hello world".toList }] }] }

/-- The stylesheet text used to witness C8. -/
def themeW8 : List Char := "body \x7b color: red; \x7d".toList

/-- The section used to witness C8. -/
def secW8 : Section :=
  { name := "NAME".toList
    commands := [{ type := .Text, value := "hello world".toList }] }

/-- The text command used to witness C8. -/
def cmdW8 : Command := { type := .Text, value := "hello world".toList }

/-! ### Basic facts about the string-view helpers -/

/-- `sv_starts_with l p` holds exactly when `l` is `p` followed by anything. -/
theorem sv_starts_with_iff : ∀ (p l : List Char),
    sv_starts_with l p = true ↔ ∃ t, l = p ++ t
  | [], l => by simp [sv_starts_with]
  | p :: ps, [] => by simp [sv_starts_with]
  | p :: ps, c :: s => by
    simp only [sv_starts_with]
    by_cases hc : c = p
    · subst hc
      rw [if_pos rfl, sv_starts_with_iff ps s]
      constructor
      · rintro ⟨t, rfl⟩; exact ⟨t, rfl⟩
      · rintro ⟨t, ht⟩
        rw [List.cons_append] at ht
        injection ht with h1 h2
        exact ⟨t, h2⟩
    · rw [if_neg hc]
      constructor
      · intro h; simp at h
      · rintro ⟨t, ht⟩
        rw [List.cons_append] at ht
        injection ht with h1 h2
        exact absurd h1 hc

/-- A `.TH`-prefixed line is not `.SH`-prefixed. -/
theorem th_not_sh {l : List Char} (h : sv_starts_with l thTag = true) :
    sv_starts_with l shTag = false := by
  obtain ⟨t, rfl⟩ := (sv_starts_with_iff thTag l).mp h
  rfl

/-- A `.SH`-prefixed line is not `.TH`-prefixed. -/
theorem sh_not_th {l : List Char} (h : sv_starts_with l shTag = true) :
    sv_starts_with l thTag = false := by
  obtain ⟨t, rfl⟩ := (sv_starts_with_iff shTag l).mp h
  rfl

/-- A `.LN`-prefixed line is not `.TH`-prefixed. -/
theorem ln_not_th {l : List Char} (h : sv_starts_with l lnTag = true) :
    sv_starts_with l thTag = false := by
  obtain ⟨t, rfl⟩ := (sv_starts_with_iff lnTag l).mp h
  rfl

/-- A `.LN`-prefixed line is not `.SH`-prefixed. -/
theorem ln_not_sh {l : List Char} (h : sv_starts_with l lnTag = true) :
    sv_starts_with l shTag = false := by
  obtain ⟨t, rfl⟩ := (sv_starts_with_iff lnTag l).mp h
  rfl

/-- A line with a multi-character tag in particular starts with its first
character. -/
theorem tag_starts_head {l : List Char} {c : Char} {ts : List Char}
    (h : sv_starts_with l (c :: ts) = true) : sv_starts_with l [c] = true := by
  obtain ⟨t, rfl⟩ := (sv_starts_with_iff (c :: ts) l).mp h
  simp [sv_starts_with]

/-- A line that does not start with `.` starts with no directive tag. -/
theorem not_dot_not_th {l : List Char} (h : sv_starts_with l dotTag = false) :
    sv_starts_with l thTag = false := by
  cases hx : sv_starts_with l thTag
  · rfl
  · have h2 : sv_starts_with l dotTag = true := tag_starts_head hx
    rw [h] at h2
    exact absurd h2 (by simp)

/-- A line that does not start with `.` does not start with `.SH`. -/
theorem not_dot_not_sh {l : List Char} (h : sv_starts_with l dotTag = false) :
    sv_starts_with l shTag = false := by
  cases hx : sv_starts_with l shTag
  · rfl
  · have h2 : sv_starts_with l dotTag = true := tag_starts_head hx
    rw [h] at h2
    exact absurd h2 (by simp)

/-- A line that does not start with `.` does not start with `.LN`. -/
theorem not_dot_not_ln {l : List Char} (h : sv_starts_with l dotTag = false) :
    sv_starts_with l lnTag = false := by
  cases hx : sv_starts_with l lnTag
  · rfl
  · have h2 : sv_starts_with l dotTag = true := tag_starts_head hx
    rw [h] at h2
    exact absurd h2 (by simp)

/-- The tokenizer loop never stores more than 5 fields. -/
theorem thGo_length_le (line : List Char) :
    ∀ (rest : List Char) (i start : Nat) (escape : Bool) (acc : List (List Char)),
      acc.length ≤ 5 → (thGo line rest i start escape acc).length ≤ 5
  | [], _, _, _, acc, h => h
  | c :: rest, i, start, escape, acc, h => by
    simp only [thGo]
    split
    · rename_i h5
      split
      · refine thGo_length_le line rest _ _ _ _ ?_
        simp only [List.length_append, List.length_cons, List.length_nil]
        omega
      · split
        · exact thGo_length_le line rest _ _ _ _ h
        · exact thGo_length_le line rest _ _ _ _ h
    · exact h

/-- `getD` of a list of empty fields is empty, at any index. -/
theorem getD_eq_empty_of_all : ∀ (l : List (List Char)) (k : Nat),
    (∀ x ∈ l, x = ([] : List Char)) → l.getD k [] = []
  | [], k, _ => by cases k <;> rfl
  | x :: xs, 0, h => h x (by simp)
  | x :: xs, k + 1, h => getD_eq_empty_of_all xs k (fun y hy => h y (by simp [hy]))

/-! ### Branch lemmas for the per-line dispatch -/

/-- Dispatch of a `.TH`-prefixed line. -/
theorem parseLine_th {path : List Char} {page : Page} {line : List Char}
    (h : sv_starts_with line thTag = true) :
    parseLine path page line = Except.ok { page with
      title := writeFields page.title (thFields (sv_trim_left (line.drop 3))) } := by
  simp [parseLine, h]

/-- Dispatch of a `.SH`-prefixed line. -/
theorem parseLine_sh {path : List Char} {page : Page} {line : List Char}
    (h : sv_starts_with line shTag = true) :
    parseLine path page line = Except.ok { page with
      sections := page.sections
        ++ [{ name := sv_trim_left (line.drop 3), commands := [] }] } := by
  simp [parseLine, sh_not_th h, h]

/-- Dispatch of a `.LN`-prefixed line when a section is open. -/
theorem parseLine_ln {path : List Char} {page : Page} {line : List Char}
    (h : sv_starts_with line lnTag = true) (hne : page.sections.isEmpty = false) :
    parseLine path page line = Except.ok { page with
      sections := appendToLast page.sections { type := .Link, value := line.drop 3 } } := by
  simp [parseLine, ln_not_th h, ln_not_sh h, h, hne]

/-- Dispatch of a `.LN`-prefixed line when no section is open: the
out-of-bounds `Back` access. -/
theorem parseLine_ln_empty {path : List Char} {page : Page} {line : List Char}
    (h : sv_starts_with line lnTag = true) (he : page.sections.isEmpty = true) :
    parseLine path page line = Except.error ParseFatal.linkNoSectionUB := by
  simp [parseLine, ln_not_th h, ln_not_sh h, h, he]

/-- Dispatch of an unrecognized `.`-prefixed line: dropped. -/
theorem parseLine_unrec {path : List Char} {page : Page} {line : List Char}
    (hth : sv_starts_with line thTag = false) (hsh : sv_starts_with line shTag = false)
    (hln : sv_starts_with line lnTag = false) (hdot : sv_starts_with line dotTag = true) :
    parseLine path page line = Except.ok page := by
  simp [parseLine, hth, hsh, hln, hdot]

/-- Dispatch of a body-text line when no section is open: the fatal error. -/
theorem parseLine_text_err {path : List Char} {page : Page} {line : List Char}
    (hdot : sv_starts_with line dotTag = false) (hlen : page.sections.length = 0) :
    parseLine path page line = Except.error (ParseFatal.textOutsideSection path) := by
  simp [parseLine, not_dot_not_th hdot, not_dot_not_sh hdot, not_dot_not_ln hdot, hdot, hlen]

/-- Dispatch of a body-text line inside a section. -/
theorem parseLine_text_ok {path : List Char} {page : Page} {line : List Char}
    (hdot : sv_starts_with line dotTag = false) (hlen : ¬ page.sections.length = 0) :
    parseLine path page line = Except.ok { page with
      sections := appendToLast page.sections { type := .Text, value := line } } := by
  simp [parseLine, not_dot_not_th hdot, not_dot_not_sh hdot, not_dot_not_ln hdot, hdot, hlen]

/-- Unfolding the parse loop after a successful step. -/
theorem parseLines_cons_ok {path : List Char} {page : Page} {l : List Char}
    {ls : List (List Char)} {p : Page} (h : parseLine path page l = Except.ok p) :
    parseLines path page (l :: ls) = parseLines path p ls := by
  simp only [parseLines, h]

/-- Unfolding the parse loop after a failing step. -/
theorem parseLines_cons_err {path : List Char} {page : Page} {l : List Char}
    {ls : List (List Char)} {e : ParseFatal} (h : parseLine path page l = Except.error e) :
    parseLines path page (l :: ls) = Except.error e := by
  simp only [parseLines, h]

/-! ### Section bookkeeping lemmas -/

/-- `appendToLast` on a decomposed nonempty list. -/
theorem appendToLast_concat (ss : List Section) (s : Section) (c : Command) :
    appendToLast (ss ++ [s]) c = ss ++ [{ s with commands := s.commands ++ [c] }] := by
  unfold appendToLast
  rw [List.getLast?_concat, List.dropLast_concat]

/-- `appendToLast` never changes the section names. -/
theorem appendToLast_map_name (ss : List Section) (c : Command) :
    (appendToLast ss c).map Section.name = ss.map Section.name := by
  rcases List.eq_nil_or_concat ss with rfl | ⟨ss₀, s, rfl⟩
  · rfl
  · rw [List.concat_eq_append, appendToLast_concat]
    simp

/-- `appendToLast` never changes sections other than the last one, and keeps
the length. -/
theorem appendToLast_getD (ss : List Section) (c : Command) (i : Nat)
    (h : i + 1 < ss.length) :
    (appendToLast ss c).length = ss.length ∧
    (appendToLast ss c).getD i noSection = ss.getD i noSection := by
  rcases List.eq_nil_or_concat ss with rfl | ⟨ss₀, s, rfl⟩
  · simp at h
  · rw [List.concat_eq_append] at h ⊢
    rw [appendToLast_concat]
    have hi : i < ss₀.length := by simpa using h
    constructor
    · simp
    · rw [List.getD_append _ _ _ _ hi, List.getD_append _ _ _ _ hi]

/-- `shNames` over a leading `.SH` line. -/
theorem shNames_cons_pos {l : List Char} (ls : List (List Char))
    (h : sv_starts_with l shTag = true) :
    shNames (l :: ls) = sv_trim_left (l.drop 3) :: shNames ls := by
  simp [shNames, List.filter_cons, h]

/-- `shNames` over a leading non-`.SH` line. -/
theorem shNames_cons_neg {l : List Char} (ls : List (List Char))
    (h : sv_starts_with l shTag = false) :
    shNames (l :: ls) = shNames ls := by
  simp [shNames, List.filter_cons, h]

/-- Parsing appends exactly the `.SH`-derived section names, in input
order, to whatever sections were already there. -/
theorem parseLines_names (path : List Char) :
    ∀ (ls : List (List Char)) (page page' : Page),
      parseLines path page ls = Except.ok page' →
      page'.sections.map Section.name = page.sections.map Section.name ++ shNames ls
  | [], page, page', h => by
    simp only [parseLines] at h
    cases h
    simp [shNames]
  | l :: ls, page, page', h => by
    cases hth : sv_starts_with l thTag with
    | true =>
      rw [parseLines_cons_ok (parseLine_th hth)] at h
      rw [parseLines_names path ls _ page' h, shNames_cons_neg ls (th_not_sh hth)]
    | false =>
      cases hsh : sv_starts_with l shTag with
      | true =>
        rw [parseLines_cons_ok (parseLine_sh hsh)] at h
        rw [parseLines_names path ls _ page' h, shNames_cons_pos ls hsh]
        simp
      | false =>
        cases hln : sv_starts_with l lnTag with
        | true =>
          cases hemp : page.sections.isEmpty with
          | true =>
            rw [parseLines_cons_err (parseLine_ln_empty hln hemp)] at h
            cases h
          | false =>
            rw [parseLines_cons_ok (parseLine_ln hln hemp)] at h
            rw [parseLines_names path ls _ page' h, shNames_cons_neg ls hsh]
            simp [appendToLast_map_name]
        | false =>
          cases hdot : sv_starts_with l dotTag with
          | true =>
            rw [parseLines_cons_ok (parseLine_unrec hth hsh hln hdot)] at h
            rw [parseLines_names path ls _ page' h, shNames_cons_neg ls hsh]
          | false =>
            by_cases hlen : page.sections.length = 0
            · rw [parseLines_cons_err (parseLine_text_err hdot hlen)] at h
              cases h
            · rw [parseLines_cons_ok (parseLine_text_ok hdot hlen)] at h
              rw [parseLines_names path ls _ page' h, shNames_cons_neg ls hsh]
              simp [appendToLast_map_name]

/-- A `.TH` line contributes no command. -/
theorem lineToCmd_th {l : List Char} (h : sv_starts_with l thTag = true) :
    lineToCmd l = none := by
  simp [lineToCmd, h]

/-- A `.LN` line contributes a `Link` command. -/
theorem lineToCmd_ln {l : List Char} (h : sv_starts_with l lnTag = true) :
    lineToCmd l = some { type := .Link, value := l.drop 3 } := by
  simp [lineToCmd, ln_not_th h, ln_not_sh h, h]

/-- An unrecognized directive contributes no command. -/
theorem lineToCmd_unrec {l : List Char}
    (hth : sv_starts_with l thTag = false) (hsh : sv_starts_with l shTag = false)
    (hln : sv_starts_with l lnTag = false) (hdot : sv_starts_with l dotTag = true) :
    lineToCmd l = none := by
  simp [lineToCmd, hth, hsh, hln, hdot]

/-- A body-text line contributes a `Text` command. -/
theorem lineToCmd_text {l : List Char} (h : sv_starts_with l dotTag = false) :
    lineToCmd l = some { type := .Text, value := l } := by
  simp [lineToCmd, not_dot_not_th h, not_dot_not_sh h, not_dot_not_ln h, h]

/-- The parse loop over an appended line list runs the two parts in
sequence. -/
theorem parseLines_append (path : List Char) :
    ∀ (xs ys : List (List Char)) (page : Page),
      parseLines path page (xs ++ ys) =
        match parseLines path page xs with
        | .ok p => parseLines path p ys
        | .error e => .error e
  | [], ys, page => rfl
  | x :: xs, ys, page => by
    rw [List.cons_append]
    cases hx : parseLine path page x with
    | ok p =>
      rw [parseLines_cons_ok hx, parseLines_append path xs ys p, parseLines_cons_ok hx]
    | error e =>
      rw [parseLines_cons_err hx, parseLines_cons_err hx]

/-- A successful parse of an appended line list splits into successful
parses of the parts. -/
theorem parseLines_append_ok {path : List Char} {page page' : Page}
    {xs ys : List (List Char)}
    (h : parseLines path page (xs ++ ys) = Except.ok page') :
    ∃ p, parseLines path page xs = Except.ok p ∧
      parseLines path p ys = Except.ok page' := by
  rw [parseLines_append path xs ys page] at h
  cases hx : parseLines path page xs with
  | ok p =>
    rw [hx] at h
    exact ⟨p, rfl, h⟩
  | error e =>
    rw [hx] at h
    exact Except.noConfusion h

/-- Running the parser over lines none of which is a `.SH` header, starting
from a page with at least one section, succeeds and appends exactly the
commands of those lines to the last section, in order. -/
theorem parseLines_noSH (path : List Char) :
    ∀ (mid : List (List Char)) (page : Page) (ss₀ : List Section) (s : Section),
      (∀ l ∈ mid, sv_starts_with l shTag = false) →
      page.sections = ss₀ ++ [s] →
      ∃ title', parseLines path page mid = Except.ok
        { title := title'
          sections := ss₀ ++ [{ s with commands := s.commands ++ mid.filterMap lineToCmd }] }
  | [], page, ss₀, s, _, hsec => by
    refine ⟨page.title, ?_⟩
    simp only [parseLines, List.filterMap_nil, List.append_nil]
    rw [← hsec]
  | l :: mid, page, ss₀, s, hmid, hsec => by
    have hmid' : ∀ x ∈ mid, sv_starts_with x shTag = false :=
      fun x hx => hmid x (List.mem_cons_of_mem l hx)
    cases hth : sv_starts_with l thTag with
    | true =>
      obtain ⟨t', hrec⟩ := parseLines_noSH path mid
        { page with title := writeFields page.title (thFields (sv_trim_left (l.drop 3))) }
        ss₀ s hmid' hsec
      refine ⟨t', ?_⟩
      rw [parseLines_cons_ok (parseLine_th hth), hrec]
      simp [List.filterMap_cons, lineToCmd_th hth]
    | false =>
      cases hsh : sv_starts_with l shTag with
      | true =>
        have hf := hmid l (List.mem_cons_self l mid)
        rw [hf] at hsh
        simp at hsh
      | false =>
        cases hln : sv_starts_with l lnTag with
        | true =>
          have hemp : page.sections.isEmpty = false := by rw [hsec]; simp
          have hsec' :
              ({ page with sections :=
                  appendToLast page.sections { type := .Link, value := l.drop 3 } } : Page).sections =
                ss₀ ++ [{ s with commands := s.commands ++ [{ type := .Link, value := l.drop 3 }] }] := by
            show appendToLast page.sections _ = _
            rw [hsec, appendToLast_concat]
          obtain ⟨t', hrec⟩ := parseLines_noSH path mid _ ss₀
            { s with commands := s.commands ++ [{ type := .Link, value := l.drop 3 }] }
            hmid' hsec'
          refine ⟨t', ?_⟩
          rw [parseLines_cons_ok (parseLine_ln hln hemp), hrec]
          simp [List.filterMap_cons, lineToCmd_ln hln]
        | false =>
          cases hdot : sv_starts_with l dotTag with
          | true =>
            obtain ⟨t', hrec⟩ := parseLines_noSH path mid page ss₀ s hmid' hsec
            refine ⟨t', ?_⟩
            rw [parseLines_cons_ok (parseLine_unrec hth hsh hln hdot), hrec]
            simp [List.filterMap_cons, lineToCmd_unrec hth hsh hln hdot]
          | false =>
            have hlen : ¬ page.sections.length = 0 := by rw [hsec]; simp
            have hsec' :
                ({ page with sections :=
                    appendToLast page.sections { type := .Text, value := l } } : Page).sections =
                  ss₀ ++ [{ s with commands := s.commands ++ [{ type := .Text, value := l }] }] := by
              show appendToLast page.sections _ = _
              rw [hsec, appendToLast_concat]
            obtain ⟨t', hrec⟩ := parseLines_noSH path mid _ ss₀
              { s with commands := s.commands ++ [{ type := .Text, value := l }] }
              hmid' hsec'
            refine ⟨t', ?_⟩
            rw [parseLines_cons_ok (parseLine_text_ok hdot hlen), hrec]
            simp [List.filterMap_cons, lineToCmd_text hdot]

/-- Once a section is no longer the last one, further parsing never touches
it: every already-closed section index keeps its contents, and the section
list never shrinks. -/
theorem parseLines_frozen (path : List Char) :
    ∀ (ls : List (List Char)) (page page' : Page),
      parseLines path page ls = Except.ok page' →
      ∀ i, i + 1 < page.sections.length →
        i + 1 < page'.sections.length ∧
        page'.sections.getD i noSection = page.sections.getD i noSection
  | [], page, page', h, i, hi => by
    simp only [parseLines] at h
    cases h
    exact ⟨hi, rfl⟩
  | l :: ls, page, page', h, i, hi => by
    cases hth : sv_starts_with l thTag with
    | true =>
      rw [parseLines_cons_ok (parseLine_th hth)] at h
      exact parseLines_frozen path ls _ page' h i hi
    | false =>
      cases hsh : sv_starts_with l shTag with
      | true =>
        rw [parseLines_cons_ok (parseLine_sh hsh)] at h
        have hi' : i + 1 <
            (page.sections
              ++ [({ name := sv_trim_left (l.drop 3), commands := [] } : Section)]).length := by
          simp only [List.length_append, List.length_cons, List.length_nil]
          omega
        obtain ⟨h1, h2⟩ := parseLines_frozen path ls _ page' h i hi'
        refine ⟨h1, ?_⟩
        rw [h2]
        exact List.getD_append _ _ _ _ (by omega)
      | false =>
        cases hln : sv_starts_with l lnTag with
        | true =>
          cases hemp : page.sections.isEmpty with
          | true =>
            rw [parseLines_cons_err (parseLine_ln_empty hln hemp)] at h
            cases h
          | false =>
            rw [parseLines_cons_ok (parseLine_ln hln hemp)] at h
            obtain ⟨hl, hg⟩ := appendToLast_getD page.sections
              { type := .Link, value := l.drop 3 } i hi
            have hi' : i + 1 <
                (appendToLast page.sections { type := .Link, value := l.drop 3 }).length := by
              rw [hl]; exact hi
            obtain ⟨h1, h2⟩ := parseLines_frozen path ls _ page' h i hi'
            exact ⟨h1, by rw [h2]; exact hg⟩
        | false =>
          cases hdot : sv_starts_with l dotTag with
          | true =>
            rw [parseLines_cons_ok (parseLine_unrec hth hsh hln hdot)] at h
            exact parseLines_frozen path ls _ page' h i hi
          | false =>
            by_cases hlen : page.sections.length = 0
            · rw [parseLines_cons_err (parseLine_text_err hdot hlen)] at h
              cases h
            · rw [parseLines_cons_ok (parseLine_text_ok hdot hlen)] at h
              obtain ⟨hl, hg⟩ := appendToLast_getD page.sections
                { type := .Text, value := l } i hi
              have hi' : i + 1 <
                  (appendToLast page.sections { type := .Text, value := l }).length := by
                rw [hl]; exact hi
              obtain ⟨h1, h2⟩ := parseLines_frozen path ls _ page' h i hi'
              exact ⟨h1, by rw [h2]; exact hg⟩

/-- Running the parser from a sectionless page over directive lines that are
neither `.SH` nor `.LN` keeps the page sectionless, so a following body-text
line hits the fatal error. -/
theorem parseLines_text_fatal (path : List Char) :
    ∀ (pre : List (List Char)) (page : Page), page.sections = [] →
      (∀ l ∈ pre, sv_starts_with l dotTag = true ∧ sv_starts_with l shTag = false ∧
          sv_starts_with l lnTag = false) →
      ∀ line rest, sv_starts_with line dotTag = false →
        parseLines path page (pre ++ line :: rest) =
          Except.error (ParseFatal.textOutsideSection path)
  | [], page, hsec, _, line, rest, hline => by
    rw [List.nil_append]
    exact parseLines_cons_err (parseLine_text_err hline (by rw [hsec]; rfl))
  | l :: pre, page, hsec, hpre, line, rest, hline => by
    obtain ⟨hd, hs, hl⟩ := hpre l (List.mem_cons_self l pre)
    have hpre' : ∀ x ∈ pre, sv_starts_with x dotTag = true ∧
        sv_starts_with x shTag = false ∧ sv_starts_with x lnTag = false :=
      fun x hx => hpre x (List.mem_cons_of_mem l hx)
    rw [List.cons_append]
    cases hth : sv_starts_with l thTag with
    | true =>
      rw [parseLines_cons_ok (parseLine_th hth)]
      exact parseLines_text_fatal path pre
        { page with title := writeFields page.title (thFields (sv_trim_left (l.drop 3))) }
        hsec hpre' line rest hline
    | false =>
      rw [parseLines_cons_ok (parseLine_unrec hth hs hl hd)]
      exact parseLines_text_fatal path pre page hsec hpre' line rest hline

/-- A member's image sits inside the flattened map as a contiguous factor. -/
theorem flatten_map_split {α : Type} (f : α → List Char) (l : List α) (a : α)
    (h : a ∈ l) : ∃ u v, (l.map f).flatten = u ++ f a ++ v := by
  obtain ⟨s, t, rfl⟩ := List.append_of_mem h
  refine ⟨(s.map f).flatten, (t.map f).flatten, ?_⟩
  simp

/-! ### C1 -/

/-- **C1, counterexample.**  The claim says the fifth title field absorbs the
whole remainder of the line, so that `.TH Prog 1 2024-01-01 SourceX My Program`
yields the fifth field `My Program`.  It does not: the fifth field is cut at
the next unescaped space exactly like the first four (the loop only stops
after the fifth field has been stored), so the fifth field is `My` and
`Program` is dropped. -/
theorem C1_counterexample :
    parse_page pathEx c1src = Except.ok { title := c1title, sections := [] } ∧
    c1title.getD 4 [] ≠ "My Program".toList := by
  decide

/-- **C1, amended.**  Splitting stops once 5 fields have been collected or
input is exhausted, and the final character position always closes the current
field; but the fifth field ends at the next unescaped space like any other, so
a sixth and later token is discarded: parsing the line
`.TH Prog 1 2024-01-01 SourceX My Program` yields the five title fields
`Prog`, `1`, `2024-01-01`, `SourceX`, `My`. -/
theorem C1_amended :
    (∀ path, parse_page path c1src = Except.ok { title := c1title, sections := [] }) ∧
    ∀ line, (thFields line).length ≤ 5 := by
  constructor
  · intro path; rfl
  · intro line
    exact thGo_length_le line line 0 0 false [] (by simp)

/-! ### C2 -/

/-- **C2, counterexample.**  The claim says the escape backslash is consumed
and absent from the stored field, giving first field `A B`.  In the code the
backslash only suppresses the split; the stored field is the raw span
(whitespace-trimmed), so the first field is `A\ B`, backslash included. -/
theorem C2_counterexample :
    parse_page pathEx c2src = Except.ok { title := c2title, sections := [] } ∧
    c2title.getD 0 [] ≠ "A B".toList := by
  decide

/-- **C2, amended.**  A space immediately preceded by an unescaped backslash
does not split, but the backslash itself stays in the stored field: for the
`.TH` remainder `A\ B C D E` the fields are `A\ B`, `C`, `D`, `E`, with the
fifth field empty. -/
theorem C2_amended :
    ∀ path, parse_page path c2src = Except.ok { title := c2title, sections := [] } :=
  fun _ => rfl

/-! ### C3 -/

/-- **C3 (code bug).**  The spec requires a `.LN` directive before any `.SH`
to fail fatally with a StructuralError naming the source path.  The code has
no such check: the body-text branch checks `sections_count == 0`
(`msg.c` line 151) but the `.LN` branch (lines 138-143) directly computes
`Back(page, sections)` = `&sections[-1]` on the NULL section array and pushes
through it — undefined behavior with no diagnostic.  In the model this is the
distinct abort `linkNoSectionUB`, whose diagnostic output is empty (no message
names the source identifier). -/
theorem C3_ln_no_section :
    parse_page pathEx c3src = Except.error ParseFatal.linkNoSectionUB ∧
    fatalMessage ParseFatal.linkNoSectionUB = [] := by
  decide

/-! ### C5 -/

/-- **C5.**  The tokenizer applied (through `parse_page`) to the `.TH`
remainder `A B C D E` produces exactly the fields `A`, `B`, `C`, `D`, `E`;
and whenever fewer than `k+1` fields are collected from the single `.TH`
line of a source, title slot `k` is left empty. -/
theorem C5_tokenizer :
    (∀ path, parse_page path c5src = Except.ok { title := c5title, sections := [] }) ∧
    ∀ line k, (thFields line).length ≤ k →
      (writeFields initPage.title (thFields line)).getD k [] = [] := by
  constructor
  · intro path; rfl
  · intro line k hk
    unfold writeFields
    rw [List.getD_append_right _ _ _ _ hk]
    apply getD_eq_empty_of_all
    intro x hx
    exact List.eq_of_mem_replicate (n := 5) (a := ([] : List Char)) (List.mem_of_mem_drop hx)

/-- Witness for C5 at the concrete remainder `A B` and slot 3. -/
theorem C5_witness :
    (writeFields initPage.title (thFields c5line2)).getD 3 [] = [] :=
  C5_tokenizer.2 c5line2 3 (by decide)

/-! ### C9 -/

/-- **C9.**  Rendering a `Link` payload emits a hyperlink whose destination is
the first-space-delimited target and whose visible text is the rest, both
trimmed; on the payload `https://example.com Example` the destination is
`https://example.com` and the label is `Example`. -/
theorem C9_link_render :
    (∀ v, print_link_to v =
        "<a href=\"".toList ++ link_target v ++ "\">".toList
          ++ link_label v ++ "</a>".toList) ∧
    print_link_to c9payload = "<a href=\"https://example.com\">Example</a>".toList :=
  ⟨fun _ => rfl, by decide⟩

/-! ### C10 -/

/-- **C10.**  Line classification is by raw character prefix only: a
`.`-prefixed line reaches the unrecognized-directive branch (warned about and
dropped, page unchanged) exactly when it matches none of the `.TH`/`.SH`/`.LN`
prefixes; any line with the `.SH` prefix is dispatched as a section header
with the left-trimmed remainder as the name, even when more characters follow
the tag — in particular `.SHx name` opens a section named `x name` and is
never reported as unrecognized. -/
theorem C10_dispatch (path : List Char) :
    (∀ page line, sv_starts_with line dotTag = true →
        sv_starts_with line thTag = false →
        sv_starts_with line shTag = false →
        sv_starts_with line lnTag = false →
        parseLine path page line = Except.ok page) ∧
    (∀ page line, sv_starts_with line shTag = true →
        parseLine path page line = Except.ok { page with
          sections := page.sections
            ++ [{ name := sv_trim_left (line.drop 3), commands := [] }] }) ∧
    ∀ p, parse_page p (".SHx name\n".toList) = Except.ok
        { title := List.replicate 5 []
          sections := [{ name := "x name".toList, commands := [] }] } := by
  refine ⟨?_, ?_, ?_⟩
  · intro page line h1 h2 h3 h4
    simp [parseLine, h1, h2, h3, h4]
  · intro page line hsh
    simp [parseLine, hsh, sh_not_th hsh]
  · intro p; rfl

/-- Witness for C10: the unrecognized line is dropped, and `.SHx name` opens
a section named `x name`. -/
theorem C10_witness :
    parseLine pathEx pgW10 lineUnrec = Except.ok pgW10 ∧
    parseLine pathEx pgW10 lineSHx = Except.ok { pgW10 with
      sections := pgW10.sections
        ++ [{ name := sv_trim_left (lineSHx.drop 3), commands := [] }] } :=
  ⟨(C10_dispatch pathEx).1 pgW10 lineUnrec (by decide) (by decide) (by decide) (by decide),
   (C10_dispatch pathEx).2.1 pgW10 lineSHx (by decide)⟩

/-! ### C4 -/

/-- **C4.**  A body-text line (one not starting with `.`) reached when no
section is open aborts parsing with the descriptive fatal error naming the
source path, before any `Text` command could be appended: the single-line
dispatch returns the error outright, and a whole parse whose lines before the
body-text line are only non-section-opening directives (`.TH` or unrecognized)
fails with exactly that error; the diagnostic message names the source
identifier. -/
theorem C4_text_before_section (path : List Char) :
    (∀ page line, page.sections = [] → sv_starts_with line dotTag = false →
        parseLine path page line = Except.error (ParseFatal.textOutsideSection path)) ∧
    (∀ pre line rest,
      (∀ l ∈ pre, sv_starts_with l dotTag = true ∧ sv_starts_with l shTag = false ∧
          sv_starts_with l lnTag = false) →
      sv_starts_with line dotTag = false →
      parseLines path initPage (pre ++ line :: rest) =
        Except.error (ParseFatal.textOutsideSection path)) ∧
    fatalMessage (ParseFatal.textOutsideSection path) =
      path ++ ": error: trying to add text without specifing section header .SH".toList :=
  ⟨fun _ line hsec hline => parseLine_text_err hline (by rw [hsec]; rfl),
   fun pre line rest hpre hline =>
     parseLines_text_fatal path pre initPage rfl hpre line rest hline,
   rfl⟩

/-- Witness for C4: text after only a `.TH` and an unrecognized directive
aborts with the fatal error. -/
theorem C4_witness :
    parseLines pathEx initPage (preW4 ++ lineW4 :: []) =
      Except.error (ParseFatal.textOutsideSection pathEx) :=
  (C4_text_before_section pathEx).2.1 preW4 lineW4 [] (by decide) (by decide)

/-! ### C6 -/

/-- **C6.**  For every source text that parses successfully, the sections of
the resulting page are, in order, exactly those opened by the `.SH` lines of
the input: the section-name list equals the name list read off the `.SH`
lines. -/
theorem C6_section_order (path src : List Char) (page : Page)
    (h : parse_page path src = Except.ok page) :
    page.sections.map Section.name = shNames (splitLines src) := by
  have h2 := parseLines_names path (splitLines src) initPage page h
  simpa [initPage] using h2

/-- Witness for C6 on a two-section source. -/
theorem C6_witness :
    pageW6.sections.map Section.name = shNames (splitLines c6src) :=
  C6_section_order pathEx c6src pageW6 (by decide)

/-! ### C7 -/

/-- **C7.**  In a successful parse, the lines strictly between a `.SH` header
and the next `.SH` header (or the end of input) become the command list of the
section that header opened — body-text lines as `Text` commands, `.LN` lines
as `Link` commands, in original line order — attached at the section index
equal to the number of `.SH` lines before that header. -/
theorem C7_commands_in_section (path : List Char)
    (pre : List (List Char)) (shLine : List Char) (mid post : List (List Char))
    (page : Page)
    (hsh : sv_starts_with shLine shTag = true)
    (hmid : ∀ l ∈ mid, sv_starts_with l shTag = false)
    (hpost : post = [] ∨ ∃ l post', post = l :: post' ∧ sv_starts_with l shTag = true)
    (hok : parseLines path initPage (pre ++ shLine :: (mid ++ post)) = Except.ok page) :
    (shNames pre).length < page.sections.length ∧
    page.sections.getD (shNames pre).length noSection =
      { name := sv_trim_left (shLine.drop 3), commands := mid.filterMap lineToCmd } := by
  obtain ⟨p1, h1, h2⟩ := parseLines_append_ok hok
  have hlen1 : p1.sections.length = (shNames pre).length := by
    have h3 := congrArg List.length (parseLines_names path pre initPage p1 h1)
    simpa [initPage] using h3
  rw [parseLines_cons_ok (parseLine_sh hsh)] at h2
  obtain ⟨p3, h3, h4⟩ := parseLines_append_ok h2
  obtain ⟨t', hmidrun⟩ := parseLines_noSH path mid
    { p1 with sections := p1.sections
        ++ [{ name := sv_trim_left (shLine.drop 3), commands := [] }] }
    p1.sections { name := sv_trim_left (shLine.drop 3), commands := [] } hmid rfl
  rw [hmidrun] at h3
  injection h3 with h3
  subst h3
  rcases hpost with rfl | ⟨l, post', rfl, hsh'⟩
  · simp only [parseLines] at h4
    injection h4 with h4
    subst h4
    constructor
    · show (shNames pre).length < (p1.sections ++ _).length
      simp only [List.length_append, List.length_cons, List.length_nil]
      omega
    · show (p1.sections ++ _).getD _ _ = _
      rw [← hlen1, List.getD_append_right _ _ _ _ (Nat.le_refl _), Nat.sub_self]
      rfl
  · rw [parseLines_cons_ok (parseLine_sh hsh')] at h4
    have h4' : parseLines path
        { title := t'
          sections := (p1.sections
              ++ [({ name := sv_trim_left (shLine.drop 3)
                     commands := [] ++ mid.filterMap lineToCmd } : Section)])
            ++ [({ name := sv_trim_left (l.drop 3), commands := [] } : Section)] }
        post' = Except.ok page := h4
    obtain ⟨hfl, hfg⟩ := parseLines_frozen path post' _ page h4' (shNames pre).length
      (by simp only [List.length_append, List.length_cons, List.length_nil]; omega)
    refine ⟨by omega, ?_⟩
    rw [hfg, ← hlen1,
      List.getD_append _ _ _ _
        (by simp only [List.length_append, List.length_cons, List.length_nil]; omega),
      List.getD_append_right _ _ _ _ (Nat.le_refl _), Nat.sub_self]
    rfl

/-- Witness for C7: the middle section holds exactly the text and link
commands of the lines between its header and the next one. -/
theorem C7_witness :
    (shNames preW7).length < pageW7.sections.length ∧
    pageW7.sections.getD (shNames preW7).length noSection =
      { name := sv_trim_left (shW7.drop 3), commands := midW7.filterMap lineToCmd } :=
  C7_commands_in_section pathEx preW7 shW7 midW7 postW7 pageW7 (by decide) (by decide)
    (Or.inr ⟨".SH C".toList, [], rfl, by decide⟩) (by decide)

/-! ### C8 -/

/-- **C8.**  Every `Text` command of a rendered page contributes its output as
a contiguous factor of the whole HTML document, and that output is a double
line-break when the content is empty or whitespace-only and the verbatim
content (followed by the line's newline) otherwise — no character of the
content is escaped or altered. -/
theorem C8_text_render (page : Page) (theme : List Char) (s : Section) (c : Command)
    (hs : s ∈ page.sections) (hc : c ∈ s.commands) (ht : c.type = CommandType.Text) :
    (∃ u v, print_page_to page theme = u ++ renderCommand c ++ v) ∧
    renderCommand c =
      (if sv_trim c.value = [] then "<br /><br />\n".toList
       else c.value ++ "\n".toList) := by
  constructor
  · obtain ⟨u1, v1, h1⟩ := flatten_map_split renderCommand s.commands c hc
    obtain ⟨u2, v2, h2⟩ := flatten_map_split renderSection page.sections s hs
    refine ⟨pageHead page theme ++ u2
        ++ ("<section>\n<h2>".toList ++ s.name ++ "</h2>".toList) ++ u1,
      v1 ++ "</section>\n".toList ++ v2 ++ pageFoot page, ?_⟩
    rw [print_page_to, h2, renderSection, h1]
    simp [List.append_assoc]
  · obtain ⟨ty, v⟩ := c
    cases ht
    simp only [renderCommand]
    by_cases hv : sv_trim v = []
    · rw [if_pos hv, if_pos (show (sv_trim v).length = 0 by rw [hv]; rfl)]
    · rw [if_neg hv, if_neg (fun hlen => hv (List.length_eq_zero.mp hlen))]

/-- Witness for C8 on a one-section page with one text command. -/
theorem C8_witness :
    (∃ u v, print_page_to pgW8 themeW8 = u ++ renderCommand cmdW8 ++ v) ∧
    renderCommand cmdW8 =
      (if sv_trim cmdW8.value = [] then "<br /><br />\n".toList
       else cmdW8.value ++ "\n".toList) :=
  C8_text_render pgW8 themeW8 secW8 cmdW8 (by decide) (by decide) (by decide)

end Msg
